import Mathlib

/-!
# Verification of the ravenfall tokenizer

Shallow embedding of `src/ravenfall/frontend/lexer.py`. The Python
`tokenize` function is a single `while` loop over a list of characters;
we embed one iteration of the loop body as `step`, and the loop itself
as the fuel-indexed `loopF` (fuel `length + 1` always suffices, which is
proved below as the termination property). Character classes
(`str.isnumeric`, `str.isalpha`, `str.isalnum`) are modelled on the
ASCII fragment via code points.
-/

namespace Ravenfall

/-- The `TokenType` enumeration from lexer.py. -/
inductive TokenType where
  | INT
  | FLOAT
  | STRING
  | BOOLEAN
  | EQUALS
  | ADD
  | SUBTRACT
  | MULTIPLY
  | DIVIDE
  | MODULO
  | OPEN_PAREN
  | CLOSE_PAREN
  | OPEN_BRACE
  | CLOSE_BRACE
  | OPEN_BRACKET
  | CLOSE_BRACKET
  | PERIOD
  | COMMA
  | COLON
  | INDENT
  | DEDENT
  | NEWLINE
  | IDENTIFIER
  | LET
  | MUT
  | EOF
  deriving DecidableEq, Repr

/-- The `Token` dataclass: a value (the exact characters consumed, as a
list of characters) and a type tag. -/
structure Token where
  value : List Char
  type : TokenType
  deriving DecidableEq, Repr

/-- The `KEYWORDS` dict: `let ↦ LET`, `mut ↦ MUT`. -/
def KEYWORDS (w : List Char) : Option TokenType :=
  if w = ['l', 'e', 't'] then some TokenType.LET
  else if w = ['m', 'u', 't'] then some TokenType.MUT
  else none

/-- The `token_map` dict local to `tokenize`: single-character symbols. -/
def token_map (c : Char) : Option TokenType :=
  if c = '=' then some TokenType.EQUALS
  else if c = '+' then some TokenType.ADD
  else if c = '-' then some TokenType.SUBTRACT
  else if c = '*' then some TokenType.MULTIPLY
  else if c = '/' then some TokenType.DIVIDE
  else if c = '%' then some TokenType.MODULO
  else if c = '.' then some TokenType.PERIOD
  else if c = ',' then some TokenType.COMMA
  else if c = ':' then some TokenType.COLON
  else if c = '(' then some TokenType.OPEN_PAREN
  else if c = ')' then some TokenType.CLOSE_PAREN
  else if c = '{' then some TokenType.OPEN_BRACE
  else if c = '}' then some TokenType.CLOSE_BRACE
  else if c = '[' then some TokenType.OPEN_BRACKET
  else if c = ']' then some TokenType.CLOSE_BRACKET
  else none

/-- Python `str.isnumeric` on the ASCII fragment: a decimal digit. -/
def isNumericChar (c : Char) : Bool :=
  decide (48 ≤ c.toNat ∧ c.toNat ≤ 57)

/-- Python `str.isalpha` on the ASCII fragment: a letter. -/
def isAlphaChar (c : Char) : Bool :=
  decide ((65 ≤ c.toNat ∧ c.toNat ≤ 90) ∨ (97 ≤ c.toNat ∧ c.toNat ≤ 122))

/-- Python `str.isalnum` on the ASCII fragment: letter or digit. -/
def isAlnumChar (c : Char) : Bool :=
  isAlphaChar c || isNumericChar c

/-- The failure modes of `tokenize`: `raise IndentationError`, the
`raise Exception` for an unrecognized character, and the out-of-range
list access that an unterminated string literal runs into. -/
inductive LexError where
  | indentationError
  | unrecognizedCharacter (c : Char)
  | unterminatedString
  deriving DecidableEq, Repr

/-- The `while chars[:4] == [' ']*4` loop after a newline: counts runs of
exactly 4 spaces, returning the number of runs and the remaining input. -/
def countIndent : List Char → Nat × List Char
  | ' ' :: ' ' :: ' ' :: ' ' :: rest =>
    let r := countIndent rest
    (r.1 + 1, r.2)
  | cs => (0, cs)

/-- The string-building loop `while chars[0] != quote_type`: returns the
interior characters and the input after the closing quote, or `none` when
the input runs out first (the `chars[0]` IndexError in the source). -/
def scanString (q : Char) : List Char → Option (List Char × List Char)
  | [] => none
  | c :: cs =>
    if c = q then some ([], cs)
    else
      match scanString q cs with
      | none => none
      | some r => some (c :: r.1, r.2)

/-- The number-building loop: consumes digits and at most one period
(breaking when a second period is seen); returns the consumed characters,
the final `period_found` flag, and the remaining input. -/
def scanNumber (periodFound : Bool) : List Char → List Char × Bool × List Char
  | [] => ([], periodFound, [])
  | c :: cs =>
    if isNumericChar c = true ∨ c = '.' then
      if periodFound = true ∧ isNumericChar c = false then ([], periodFound, c :: cs)
      else
        let pf := if c = '.' then true else periodFound
        let r := scanNumber pf cs
        (c :: r.1, r.2.1, r.2.2)
    else ([], periodFound, c :: cs)

/-- The word-building loop `while chars and (chars[0].isalnum() or
chars[0] in '_')`: returns the consumed run and the remaining input. -/
def scanWord : List Char → List Char × List Char
  | [] => ([], [])
  | c :: cs =>
    if isAlnumChar c = true ∨ c = '_' then
      let r := scanWord cs
      (c :: r.1, r.2)
    else ([], c :: cs)

/-- Classification of a completed word run: booleans first, then the
keyword table, else `IDENTIFIER` (the tail of the `isalpha` branch). -/
def classifyWord (w : List Char) : TokenType :=
  if w = ['t', 'r', 'u', 'e'] ∨ w = ['f', 'a', 'l', 's', 'e'] then TokenType.BOOLEAN
  else
    match KEYWORDS w with
    | some k => k
    | none => TokenType.IDENTIFIER

/-- One iteration of the `while chars:` loop body of `tokenize`, on state
`(any_bracket_level, last_indent_level)` and input `c :: rest`: either an
error (a `raise` in the source), or the tokens appended during this
iteration together with the new bracket level, new indent level, and
remaining input. -/
def step (bracket : Int) (indent : Nat) (c : Char) (rest : List Char) :
    Except LexError (List Token × Int × Nat × List Char) :=
  if c = ' ' then
    Except.ok ([], bracket, indent, rest)
  else if c = '\n' then
    let ci := countIndent rest
    if bracket > 0 then
      Except.ok ([], bracket, indent, ci.2)
    else if ci.1 > indent then
      if (indent : Int) - (ci.1 : Int) ≠ -1 then Except.error LexError.indentationError
      else
        Except.ok ([⟨['\n'], TokenType.NEWLINE⟩, ⟨[], TokenType.INDENT⟩], bracket, ci.1, ci.2)
    else
      Except.ok (⟨['\n'], TokenType.NEWLINE⟩ :: List.replicate (indent - ci.1) ⟨[], TokenType.DEDENT⟩,
        bracket, ci.1, ci.2)
  else if c = '\'' ∨ c = '"' then
    match scanString c rest with
    | none => Except.error LexError.unterminatedString
    | some r => Except.ok ([⟨r.1, TokenType.STRING⟩], bracket, indent, r.2)
  else
    match token_map c with
    | some tt =>
      let bracket2 :=
        if c = '(' ∨ c = '{' ∨ c = '[' then bracket + 1
        else if c = ')' ∨ c = '}' ∨ c = ']' then bracket - 1
        else bracket
      Except.ok ([⟨[c], tt⟩], bracket2, indent, rest)
    | none =>
      if isNumericChar c = true then
        let r := scanNumber false (c :: rest)
        Except.ok ([⟨r.1, if r.2.1 then TokenType.FLOAT else TokenType.INT⟩],
          bracket, indent, r.2.2)
      else if isAlphaChar c = true then
        let r := scanWord (c :: rest)
        Except.ok ([⟨r.1, classifyWord r.1⟩], bracket, indent, r.2)
      else Except.error (LexError.unrecognizedCharacter c)

/-- The `while chars:` loop of `tokenize`, driven by fuel (each iteration
consumes at least one character, so fuel `length + 1` suffices; `none`
means the fuel ran out, which `loopF_isSome_of_lt` below rules out).
On success it returns the token stream — with the final `EOF` token
appended, as in the source — together with the final `last_indent_level`. -/
def loopF : Nat → Int → Nat → List Char → Option (Except LexError (List Token × Nat))
  | 0, _, _, _ => none
  | _ + 1, _, indent, [] => some (Except.ok ([⟨[], TokenType.EOF⟩], indent))
  | fuel + 1, bracket, indent, c :: rest =>
    match step bracket indent c rest with
    | Except.error e => some (Except.error e)
    | Except.ok s =>
      match loopF fuel s.2.1 s.2.2.1 s.2.2.2 with
      | some (Except.ok r) => some (Except.ok (s.1 ++ r.1, r.2))
      | r => r

/-- `tokenize(source_code)`: runs the loop from bracket level 0 and indent
level 0 with sufficient fuel and keeps the token stream. `some (ok ts)` is
a normal return, `some (error e)` a `raise`; `none` (fuel exhaustion) is
proved unreachable. -/
def tokenize (cs : List Char) : Option (Except LexError (List Token)) :=
  match loopF (cs.length + 1) 0 0 cs with
  | some (Except.ok r) => some (Except.ok r.1)
  | some (Except.error e) => some (Except.error e)
  | none => none

/-- Number of tokens of a given type in a stream. -/
def countTok (ts : List Token) (tt : TokenType) : Nat :=
  List.countP (fun t => t.type = tt) ts

/-! ## Length lemmas for the scanners -/

theorem countIndent_length (cs : List Char) : (countIndent cs).2.length ≤ cs.length := by
  induction cs using countIndent.induct with
  | case1 rest ih =>
    simp only [countIndent]
    simp only [List.length_cons]
    omega
  | case2 cs h =>
    rw [countIndent.eq_def]
    split
    · simp at h
    · exact Nat.le_refl _

theorem scanString_length (q : Char) (cs : List Char) (r : List Char × List Char)
    (h : scanString q cs = some r) : r.2.length ≤ cs.length := by
  induction cs generalizing r with
  | nil => simp [scanString] at h
  | cons c cs ih =>
    simp only [scanString] at h
    split at h
    · cases h
      simp
    · cases hrec : scanString q cs with
      | none => rw [hrec] at h; cases h
      | some r2 =>
        rw [hrec] at h
        cases h
        have := ih r2 hrec
        simp
        omega

theorem scanNumber_length (pf : Bool) (cs : List Char) :
    (scanNumber pf cs).2.2.length ≤ cs.length := by
  induction cs generalizing pf with
  | nil => simp [scanNumber]
  | cons c cs ih =>
    by_cases h1 : isNumericChar c = true ∨ c = '.'
    · by_cases h2 : pf = true ∧ isNumericChar c = false
      · simp [scanNumber, if_pos h1, if_pos h2]
      · simp only [scanNumber, if_pos h1, if_neg h2]
        have := ih (if c = '.' then true else pf)
        simp only [List.length_cons]
        omega
    · simp [scanNumber, if_neg h1]

theorem scanNumber_cons_length (c : Char) (cs : List Char)
    (h : isNumericChar c = true) :
    (scanNumber false (c :: cs)).2.2.length ≤ cs.length := by
  simp only [scanNumber, if_pos (Or.inl h)]
  rw [if_neg]
  · exact scanNumber_length _ cs
  · simp

theorem scanWord_length (cs : List Char) : (scanWord cs).2.length ≤ cs.length := by
  induction cs with
  | nil => simp [scanWord]
  | cons c cs ih =>
    simp only [scanWord]
    split
    · simp only [List.length_cons]
      omega
    · exact Nat.le_refl _

/-! ## Per-iteration lemmas about `step` -/

theorem step_length (bracket : Int) (indent : Nat) (c : Char) (rest : List Char)
    (ts : List Token) (b2 : Int) (i2 : Nat) (rest2 : List Char)
    (h : step bracket indent c rest = Except.ok (ts, b2, i2, rest2)) :
    rest2.length ≤ rest.length := by
  simp only [step] at h
  split at h
  · cases h; exact Nat.le_refl _
  · split at h
    · split at h
      · cases h
        exact countIndent_length rest
      · split at h
        · split at h
          · cases h
          · cases h
            exact countIndent_length rest
        · cases h
          exact countIndent_length rest
    · split at h
      · cases hscan : scanString c rest with
        | none => rw [hscan] at h; cases h
        | some r =>
          rw [hscan] at h
          cases h
          exact scanString_length c rest r hscan
      · split at h
        · cases h
          exact Nat.le_refl _
        · split at h
          · cases h
            rename_i hnum
            exact scanNumber_cons_length c rest hnum
          · split at h
            · cases h
              rename_i halpha
              have hcond : isAlnumChar c = true ∨ c = '_' :=
                Or.inl (by simp [isAlnumChar, halpha])
              simp only [scanWord, if_pos hcond]
              exact scanWord_length rest
            · cases h

/-! ## Exact behaviour of the scanners on well-shaped inputs -/

theorem scanString_complete (q : Char) (body rest : List Char)
    (h : ∀ x ∈ body, x ≠ q) :
    scanString q (body ++ q :: rest) = some (body, rest) := by
  induction body with
  | nil => simp [scanString]
  | cons c cs ih =>
    have hc : c ≠ q := h c (by simp)
    have := ih (fun x hx => h x (by simp [hx]))
    simp [scanString, hc, this]

theorem scanString_exhausted (q : Char) (cs : List Char) (h : ∀ x ∈ cs, x ≠ q) :
    scanString q cs = none := by
  induction cs with
  | nil => rfl
  | cons c cs ih =>
    have hc : c ≠ q := h c (by simp)
    have := ih (fun x hx => h x (by simp [hx]))
    simp [scanString, hc, this]

theorem scanWord_total (w : List Char)
    (h : ∀ x ∈ w, isAlnumChar x = true ∨ x = '_') :
    scanWord w = (w, []) := by
  induction w with
  | nil => rfl
  | cons c cs ih =>
    have hc := h c (by simp)
    have := ih (fun x hx => h x (by simp [hx]))
    simp [scanWord, hc, this]

/-! ## Character-class dispatch facts -/

theorem isAlphaChar_ne (c : Char) (h : isAlphaChar c = true) :
    c ≠ ' ' ∧ c ≠ '\n' ∧ c ≠ '\'' ∧ c ≠ '"' := by
  refine ⟨?_, ?_, ?_, ?_⟩ <;> (rintro rfl; exact absurd h (by decide))

theorem token_map_none_of_isAlphaChar (c : Char) (h : isAlphaChar c = true) :
    token_map c = none := by
  have hne : ∀ d : Char, isAlphaChar d = false → ¬(c = d) := by
    intro d hd he
    subst he
    rw [h] at hd
    simp at hd
  simp [token_map, hne '=' (by decide), hne '+' (by decide), hne '-' (by decide),
    hne '*' (by decide), hne '/' (by decide), hne '%' (by decide), hne '.' (by decide),
    hne ',' (by decide), hne ':' (by decide), hne '(' (by decide), hne ')' (by decide),
    hne '{' (by decide), hne '}' (by decide), hne '[' (by decide), hne ']' (by decide)]

theorem isNumericChar_eq_false_of_isAlphaChar (c : Char) (h : isAlphaChar c = true) :
    isNumericChar c = false := by
  simp only [isAlphaChar, decide_eq_true_eq] at h
  simp only [isNumericChar, decide_eq_false_iff_not]
  omega

/-! ## Shape of the tokens emitted by one iteration -/

theorem token_map_not_structural (c : Char) (tt : TokenType) (h : token_map c = some tt) :
    tt ≠ TokenType.INDENT ∧ tt ≠ TokenType.DEDENT ∧ tt ≠ TokenType.NEWLINE ∧
      tt ≠ TokenType.EOF := by
  rw [token_map] at h
  by_cases h1 : c = '='
  · rw [if_pos h1] at h; cases h; decide
  rw [if_neg h1] at h
  by_cases h2 : c = '+'
  · rw [if_pos h2] at h; cases h; decide
  rw [if_neg h2] at h
  by_cases h3 : c = '-'
  · rw [if_pos h3] at h; cases h; decide
  rw [if_neg h3] at h
  by_cases h4 : c = '*'
  · rw [if_pos h4] at h; cases h; decide
  rw [if_neg h4] at h
  by_cases h5 : c = '/'
  · rw [if_pos h5] at h; cases h; decide
  rw [if_neg h5] at h
  by_cases h6 : c = '%'
  · rw [if_pos h6] at h; cases h; decide
  rw [if_neg h6] at h
  by_cases h7 : c = '.'
  · rw [if_pos h7] at h; cases h; decide
  rw [if_neg h7] at h
  by_cases h8 : c = ','
  · rw [if_pos h8] at h; cases h; decide
  rw [if_neg h8] at h
  by_cases h9 : c = ':'
  · rw [if_pos h9] at h; cases h; decide
  rw [if_neg h9] at h
  by_cases h10 : c = '('
  · rw [if_pos h10] at h; cases h; decide
  rw [if_neg h10] at h
  by_cases h11 : c = ')'
  · rw [if_pos h11] at h; cases h; decide
  rw [if_neg h11] at h
  by_cases h12 : c = '{'
  · rw [if_pos h12] at h; cases h; decide
  rw [if_neg h12] at h
  by_cases h13 : c = '}'
  · rw [if_pos h13] at h; cases h; decide
  rw [if_neg h13] at h
  by_cases h14 : c = '['
  · rw [if_pos h14] at h; cases h; decide
  rw [if_neg h14] at h
  by_cases h15 : c = ']'
  · rw [if_pos h15] at h; cases h; decide
  rw [if_neg h15] at h
  cases h

theorem classifyWord_not_structural (w : List Char) :
    classifyWord w ≠ TokenType.INDENT ∧ classifyWord w ≠ TokenType.DEDENT ∧
      classifyWord w ≠ TokenType.NEWLINE ∧ classifyWord w ≠ TokenType.EOF := by
  unfold classifyWord
  split
  · decide
  · split
    · rename_i k heq
      rw [KEYWORDS] at heq
      by_cases hk1 : w = ['l', 'e', 't']
      · rw [if_pos hk1] at heq; cases heq; decide
      rw [if_neg hk1] at heq
      by_cases hk2 : w = ['m', 'u', 't']
      · rw [if_pos hk2] at heq; cases heq; decide
      rw [if_neg hk2] at heq
      cases heq
    · decide

/-- Every token appended by one loop iteration is not `EOF`; `INDENT` and
`DEDENT` tokens carry the empty value; `NEWLINE` tokens carry the newline
character. -/
theorem step_tokens (bracket : Int) (indent : Nat) (c : Char) (rest : List Char)
    (ts : List Token) (b2 : Int) (i2 : Nat) (rest2 : List Char)
    (h : step bracket indent c rest = Except.ok (ts, b2, i2, rest2)) :
    ∀ t ∈ ts, t.type ≠ TokenType.EOF ∧
      ((t.type = TokenType.INDENT ∨ t.type = TokenType.DEDENT) → t.value = []) ∧
      (t.type = TokenType.NEWLINE → t.value = ['\n']) := by
  simp only [step] at h
  split at h
  · cases h; simp
  · split at h
    · split at h
      · cases h; simp
      · split at h
        · split at h
          · cases h
          · cases h
            intro t ht
            simp only [List.mem_cons, List.mem_singleton] at ht
            rcases ht with rfl | rfl | ht
            · exact ⟨by decide, by decide, by simp⟩
            · exact ⟨by decide, by simp, by decide⟩
            · cases ht
        · cases h
          intro t ht
          simp only [List.mem_cons] at ht
          rcases ht with rfl | ht
          · exact ⟨by decide, by decide, by simp⟩
          · have := List.eq_of_mem_replicate ht
            subst this
            exact ⟨by decide, by simp, by decide⟩
    · split at h
      · cases hscan : scanString c rest with
        | none => rw [hscan] at h; cases h
        | some r =>
          rw [hscan] at h
          cases h
          intro t ht
          simp only [List.mem_singleton] at ht
          subst ht
          exact ⟨by simp, by simp, by simp⟩
      · split at h
        · cases h
          rename_i tt htm
          intro t ht
          simp only [List.mem_singleton] at ht
          subst ht
          obtain ⟨h1, h2, h3, h4⟩ := token_map_not_structural c tt htm
          exact ⟨h4, by simp [h1, h2], by simp [h3]⟩
        · split at h
          · cases h
            intro t ht
            simp only [List.mem_singleton] at ht
            subst ht
            refine ⟨?_, ?_, ?_⟩ <;> (simp only []; split <;> simp)
          · split at h
            · cases h
              intro t ht
              simp only [List.mem_singleton] at ht
              subst ht
              obtain ⟨h1, h2, h3, h4⟩ := classifyWord_not_structural (scanWord (c :: rest)).1
              exact ⟨h4, by simp [h1, h2], by simp [h3]⟩
            · cases h

/-! ## Counting tokens -/

theorem countTok_nil (tt : TokenType) : countTok [] tt = 0 := rfl

theorem countTok_cons (t : Token) (ts : List Token) (tt : TokenType) :
    countTok (t :: ts) tt = countTok ts tt + (if t.type = tt then 1 else 0) := by
  simp [countTok, List.countP_cons]

theorem countTok_append (a b : List Token) (tt : TokenType) :
    countTok (a ++ b) tt = countTok a tt + countTok b tt := by
  simp [countTok, List.countP_append]

theorem countTok_replicate (n : Nat) (t : Token) (tt : TokenType) :
    countTok (List.replicate n t) tt = if t.type = tt then n else 0 := by
  induction n with
  | zero => simp [countTok]
  | succ n ih =>
    rw [List.replicate_succ, countTok_cons, ih]
    split <;> omega

theorem countTok_eq_zero (ts : List Token) (tt : TokenType)
    (h : ∀ t ∈ ts, t.type ≠ tt) : countTok ts tt = 0 := by
  simp only [countTok, List.countP_eq_zero]
  intro t ht
  simp [h t ht]

/-- One loop iteration changes `last_indent_level` by exactly the number
of `INDENT` tokens it appends minus the number of `DEDENT` tokens. -/
theorem step_indent_count (bracket : Int) (indent : Nat) (c : Char) (rest : List Char)
    (ts : List Token) (b2 : Int) (i2 : Nat) (rest2 : List Char)
    (h : step bracket indent c rest = Except.ok (ts, b2, i2, rest2)) :
    (countTok ts TokenType.INDENT : Int) - (countTok ts TokenType.DEDENT : Int) =
      (i2 : Int) - (indent : Int) := by
  simp only [step] at h
  split at h
  · cases h; simp [countTok_nil]
  · split at h
    · split at h
      · cases h; simp [countTok_nil]
      · split at h
        · split at h
          · cases h
          · cases h
            simp [countTok_cons, countTok_nil]
            omega
        · cases h
          simp [countTok_cons, countTok_replicate, countTok_nil]
          omega
    · split at h
      · cases hscan : scanString c rest with
        | none => rw [hscan] at h; cases h
        | some r =>
          rw [hscan] at h
          cases h
          simp [countTok_cons, countTok_nil]
      · split at h
        · cases h
          rename_i tt htm
          obtain ⟨h1, h2, _, _⟩ := token_map_not_structural c tt htm
          simp [countTok_cons, countTok_nil, h1, h2]
        · split at h
          · cases h
            have hb : ∀ b : Bool,
                ((if b then TokenType.FLOAT else TokenType.INT) ≠ TokenType.INDENT) ∧
                ((if b then TokenType.FLOAT else TokenType.INT) ≠ TokenType.DEDENT) := by
              intro b; cases b <;> simp
            simp [countTok_cons, countTok_nil, (hb _).1, (hb _).2]
          · split at h
            · cases h
              obtain ⟨h1, h2, _, _⟩ :=
                classifyWord_not_structural (scanWord (c :: rest)).1
              simp [countTok_cons, countTok_nil, h1, h2]
            · cases h

/-! ## The main loop: termination and stream invariants -/

/-- Fuel greater than the input length never runs out: each loop
iteration consumes at least one character. -/
theorem loopF_isSome_of_lt (fuel : Nat) :
    ∀ (bracket : Int) (indent : Nat) (cs : List Char), cs.length < fuel →
      (loopF fuel bracket indent cs).isSome = true := by
  induction fuel with
  | zero => intro b i cs h; omega
  | succ fuel ih =>
    intro b i cs h
    match cs with
    | [] => simp [loopF]
    | c :: rest =>
      cases hstep : step b i c rest with
      | error e => simp [loopF, hstep]
      | ok s =>
        obtain ⟨ts, b2, i2, rest2⟩ := s
        have hlen := step_length b i c rest ts b2 i2 rest2 hstep
        have hlt : rest2.length < fuel := by
          simp only [List.length_cons] at h
          omega
        have hrec := ih b2 i2 rest2 hlt
        simp only [loopF, hstep]
        cases hloop : loopF fuel b2 i2 rest2 with
        | none => rw [hloop] at hrec; simp at hrec
        | some r => cases r <;> simp

/-- On success the stream is non-empty, ends in the `EOF` token with empty
value, and contains exactly one `EOF` token. -/
theorem loopF_eof (fuel : Nat) :
    ∀ (bracket : Int) (indent : Nat) (cs : List Char) (ts : List Token) (fi : Nat),
      loopF fuel bracket indent cs = some (Except.ok (ts, fi)) →
      ts ≠ [] ∧ ts.getLast? = some ⟨[], TokenType.EOF⟩ ∧ countTok ts TokenType.EOF = 1 := by
  induction fuel with
  | zero => intro b i cs ts fi h; simp [loopF] at h
  | succ fuel ih =>
    intro b i cs ts fi h
    match cs with
    | [] =>
      simp only [loopF] at h
      cases h
      refine ⟨by simp, by simp, by decide⟩
    | c :: rest =>
      simp only [loopF] at h
      cases hstep : step b i c rest with
      | error e => simp [hstep] at h
      | ok s =>
        obtain ⟨ts0, b2, i2, rest2⟩ := s
        simp only [hstep] at h
        cases hloop : loopF fuel b2 i2 rest2 with
        | none => simp [hloop] at h
        | some r =>
          simp only [hloop] at h
          cases r with
          | error e => simp at h
          | ok p =>
            obtain ⟨ts1, fi1⟩ := p
            cases h
            obtain ⟨h1, h2, h3⟩ := ih b2 i2 rest2 ts1 fi1 hloop
            have hnoeof := step_tokens b i c rest ts0 b2 i2 rest2 hstep
            refine ⟨by simp [h1], ?_, ?_⟩
            · rw [List.getLast?_append_of_ne_nil ts0 h1]
              exact h2
            · rw [countTok_append, h3,
                countTok_eq_zero ts0 TokenType.EOF (fun t ht => (hnoeof t ht).1)]

/-- On success every `INDENT`/`DEDENT` token has the empty value and every
`NEWLINE` token has the newline character as its value. -/
theorem loopF_struct (fuel : Nat) :
    ∀ (bracket : Int) (indent : Nat) (cs : List Char) (ts : List Token) (fi : Nat),
      loopF fuel bracket indent cs = some (Except.ok (ts, fi)) →
      ∀ t ∈ ts, ((t.type = TokenType.INDENT ∨ t.type = TokenType.DEDENT) → t.value = []) ∧
        (t.type = TokenType.NEWLINE → t.value = ['\n']) := by
  induction fuel with
  | zero => intro b i cs ts fi h; simp [loopF] at h
  | succ fuel ih =>
    intro b i cs ts fi h
    match cs with
    | [] =>
      simp only [loopF] at h
      cases h
      intro t ht
      simp only [List.mem_singleton] at ht
      subst ht
      exact ⟨by decide, by decide⟩
    | c :: rest =>
      simp only [loopF] at h
      cases hstep : step b i c rest with
      | error e => simp [hstep] at h
      | ok s =>
        obtain ⟨ts0, b2, i2, rest2⟩ := s
        simp only [hstep] at h
        cases hloop : loopF fuel b2 i2 rest2 with
        | none => simp [hloop] at h
        | some r =>
          simp only [hloop] at h
          cases r with
          | error e => simp at h
          | ok p =>
            obtain ⟨ts1, fi1⟩ := p
            cases h
            intro t ht
            rw [List.mem_append] at ht
            cases ht with
            | inl ht0 =>
              obtain ⟨_, hs1, hs2⟩ := step_tokens b i c rest ts0 b2 i2 rest2 hstep t ht0
              exact ⟨hs1, hs2⟩
            | inr ht1 => exact ih b2 i2 rest2 ts1 fi1 hloop t ht1

/-- On success the `INDENT`/`DEDENT` count difference of the stream equals
the final indent level minus the starting one. -/
theorem loopF_count (fuel : Nat) :
    ∀ (bracket : Int) (indent : Nat) (cs : List Char) (ts : List Token) (fi : Nat),
      loopF fuel bracket indent cs = some (Except.ok (ts, fi)) →
      (countTok ts TokenType.INDENT : Int) - (countTok ts TokenType.DEDENT : Int) =
        (fi : Int) - (indent : Int) := by
  induction fuel with
  | zero => intro b i cs ts fi h; simp [loopF] at h
  | succ fuel ih =>
    intro b i cs ts fi h
    match cs with
    | [] =>
      simp only [loopF] at h
      cases h
      simp [countTok_cons, countTok_nil]
    | c :: rest =>
      simp only [loopF] at h
      cases hstep : step b i c rest with
      | error e => simp [hstep] at h
      | ok s =>
        obtain ⟨ts0, b2, i2, rest2⟩ := s
        simp only [hstep] at h
        cases hloop : loopF fuel b2 i2 rest2 with
        | none => simp [hloop] at h
        | some r =>
          simp only [hloop] at h
          cases r with
          | error e => simp at h
          | ok p =>
            obtain ⟨ts1, fi1⟩ := p
            cases h
            have hstepc := step_indent_count b i c rest ts0 b2 i2 rest2 hstep
            have hrec := ih b2 i2 rest2 ts1 fi1 hloop
            rw [countTok_append, countTok_append]
            push_cast
            omega

/-! ## Derived facts used by several claims -/

/-- String mode on a well-terminated literal: the opening quote is
discarded, the body is consumed verbatim, the closing quote is discarded,
and one `STRING` token carrying exactly the body is appended; bracket
level and indent level are untouched. -/
theorem step_string (q : Char) (hq : q = '\'' ∨ q = '"') (bracket : Int) (indent : Nat)
    (body rest : List Char) (hbody : ∀ x ∈ body, x ≠ q) :
    step bracket indent q (body ++ q :: rest) =
      Except.ok ([⟨body, TokenType.STRING⟩], bracket, indent, rest) := by
  have h1 : ¬(q = ' ') := by rcases hq with rfl | rfl <;> decide
  have h2 : ¬(q = '\n') := by rcases hq with rfl | rfl <;> decide
  simp only [step, if_neg h1, if_neg h2, if_pos hq,
    scanString_complete q body rest hbody]

/-! ## Claims -/

/-- C1 (counterexample): the input `"_x"` is a maximal run matching
`[A-Za-z_][A-Za-z0-9_]*` and is none of the four reserved words, yet
`tokenize` does not yield an `IDENTIFIER` token for it — word mode is
entered only on an alphabetic character, so the leading underscore is
rejected as an unrecognized character. -/
theorem underscore_run_not_identifier :
    tokenize ['_', 'x'] = some (Except.error (LexError.unrecognizedCharacter '_')) := by
  rfl

/-- C1 (amended): an input consisting of one run that starts with a
letter, continues with letters, digits or underscores, and is not `true`,
`false`, `let` or `mut`, tokenizes to exactly one `IDENTIFIER` token whose
value is the run, followed by `EOF`. -/
theorem identifier_run_tokenizes (c : Char) (cs : List Char)
    (halpha : isAlphaChar c = true)
    (hword : ∀ x ∈ c :: cs, isAlnumChar x = true ∨ x = '_')
    (htrue : c :: cs ≠ ['t', 'r', 'u', 'e'])
    (hfalse : c :: cs ≠ ['f', 'a', 'l', 's', 'e'])
    (hlet : c :: cs ≠ ['l', 'e', 't'])
    (hmut : c :: cs ≠ ['m', 'u', 't']) :
    tokenize (c :: cs) =
      some (Except.ok [⟨c :: cs, TokenType.IDENTIFIER⟩, ⟨[], TokenType.EOF⟩]) := by
  obtain ⟨hsp, hnl, hq1, hq2⟩ := isAlphaChar_ne c halpha
  have hq : ¬(c = '\'' ∨ c = '"') := by
    rintro (rfl | rfl) <;> exact absurd halpha (by decide)
  have hstep : step 0 0 c cs =
      Except.ok ([⟨c :: cs, classifyWord (c :: cs)⟩], 0, 0, []) := by
    simp only [step, if_neg hsp, if_neg hnl, if_neg hq,
      token_map_none_of_isAlphaChar c halpha,
      isNumericChar_eq_false_of_isAlphaChar c halpha,
      scanWord_total (c :: cs) hword]
    simp [halpha]
  have hclass : classifyWord (c :: cs) = TokenType.IDENTIFIER := by
    simp [classifyWord, KEYWORDS, htrue, hfalse, hlet, hmut]
  simp only [tokenize, List.length_cons, loopF, hstep, hclass]
  rfl

/-- C1 (witness): the run `"x1_"` starts with a letter, is made of word
characters, is not reserved, and tokenizes to that single identifier. -/
theorem identifier_run_tokenizes_witness :
    tokenize ['x', '1', '_'] =
      some (Except.ok [⟨['x', '1', '_'], TokenType.IDENTIFIER⟩, ⟨[], TokenType.EOF⟩]) :=
  identifier_run_tokenizes 'x' ['1', '_'] (by decide) (by decide) (by decide) (by decide)
    (by decide) (by decide)

/-- C2 (counterexample): on the succeeding input `"\n"` the structural
`NEWLINE` token carries the newline character as its value, not the empty
string — the source creates it as `Token(newline, NEWLINE)`. -/
theorem newline_token_value_not_empty :
    tokenize ['\n'] =
      some (Except.ok [⟨['\n'], TokenType.NEWLINE⟩, ⟨[], TokenType.EOF⟩]) ∧
    (['\n'] : List Char) ≠ [] := by
  exact ⟨by rfl, by simp⟩

/-- C2 (amended): on every succeeding input, every `INDENT` or `DEDENT`
token has the empty value, and every `NEWLINE` token has the one-character
value `"\n"`. -/
theorem structural_token_values (cs : List Char) (ts : List Token)
    (h : tokenize cs = some (Except.ok ts)) :
    ∀ t ∈ ts, ((t.type = TokenType.INDENT ∨ t.type = TokenType.DEDENT) → t.value = []) ∧
      (t.type = TokenType.NEWLINE → t.value = ['\n']) := by
  simp only [tokenize] at h
  cases hl : loopF (cs.length + 1) 0 0 cs with
  | none => simp [hl] at h
  | some r =>
    simp only [hl] at h
    cases r with
    | error e => simp at h
    | ok p =>
      obtain ⟨ts1, fi⟩ := p
      cases h
      exact loopF_struct (cs.length + 1) 0 0 cs ts1 fi hl

/-- C2 (witness): instantiated on the input `"a\n    b"` at its `NEWLINE`
token, whose value is the newline character. -/
theorem structural_token_values_witness :
    (Token.mk ['\n'] TokenType.NEWLINE).value = ['\n'] :=
  (structural_token_values ['a', '\n', ' ', ' ', ' ', ' ', 'b']
    [⟨['a'], TokenType.IDENTIFIER⟩, ⟨['\n'], TokenType.NEWLINE⟩, ⟨[], TokenType.INDENT⟩,
      ⟨['b'], TokenType.IDENTIFIER⟩, ⟨[], TokenType.EOF⟩] (by rfl)
    ⟨['\n'], TokenType.NEWLINE⟩ (by decide)).2 (by rfl)

/-- C3: with bracket depth 0, a newline whose candidate indentation
exceeds the current indent level by more than one unit makes the scan fail
with `IndentationError`; in particular the two-unit jump
`"let x = 5\n        y = 2"` fails that way. -/
theorem indentation_jump_fails :
    (∀ (indent : Nat) (rest : List Char), (countIndent rest).1 > indent + 1 →
      step 0 indent '\n' rest = Except.error LexError.indentationError) ∧
    tokenize ("let x = 5\n        y = 2".data) =
      some (Except.error LexError.indentationError) := by
  constructor
  · intro indent rest hgt
    simp only [step]
    rw [if_pos trivial, if_neg (show ¬((0 : Int) > 0) by omega),
      if_pos (show (countIndent rest).1 > indent by omega),
      if_pos (show (indent : Int) - ((countIndent rest).1 : Int) ≠ -1 by omega),
      if_neg (show ¬('\n' = ' ') by decide)]
  · rfl

/-- C3 (witness): the general statement applied at indent level 0 and the
concrete 8-space remainder of the failing input. -/
theorem indentation_jump_fails_witness :
    (countIndent "        y = 2".data).1 > 0 + 1 ∧
      step 0 0 '\n' "        y = 2".data = Except.error LexError.indentationError :=
  ⟨by decide, indentation_jump_fails.1 0 "        y = 2".data (by decide)⟩

/-- C4: while the bracket depth is positive, a newline (with however much
indentation follows it) appends no tokens and leaves the indent level
unchanged; concretely `"(\n    1\n)"` produces only
`OPEN_PAREN, INT("1"), CLOSE_PAREN, EOF("")`. -/
theorem bracket_newline_suppression :
    (∀ (bracket : Int) (indent : Nat) (rest : List Char), bracket > 0 →
      step bracket indent '\n' rest =
        Except.ok ([], bracket, indent, (countIndent rest).2)) ∧
    tokenize ("(\n    1\n)".data) =
      some (Except.ok [⟨['('], TokenType.OPEN_PAREN⟩, ⟨['1'], TokenType.INT⟩,
        ⟨[')'], TokenType.CLOSE_PAREN⟩, ⟨[], TokenType.EOF⟩]) := by
  constructor
  · intro bracket indent rest hb
    simp only [step]
    rw [if_pos trivial, if_pos hb, if_neg (show ¬('\n' = ' ') by decide)]
  · rfl

/-- C4 (witness): the general statement applied at bracket depth 1 with
the remainder of the concrete input. -/
theorem bracket_newline_suppression_witness :
    (1 : Int) > 0 ∧
      step 1 0 '\n' "    1\n)".data =
        Except.ok ([], 1, 0, (countIndent "    1\n)".data).2) :=
  ⟨by decide, bracket_newline_suppression.1 1 0 "    1\n)".data (by decide)⟩

/-- C5: on every successful run started at indent level 0, the number of
`INDENT` tokens minus the number of `DEDENT` tokens in the stream equals
the final indent level; trailing open indentation is never auto-closed, so
the difference can be positive on return. -/
theorem indent_dedent_balance (cs : List Char) (ts : List Token) (fi : Nat)
    (h : loopF (cs.length + 1) 0 0 cs = some (Except.ok (ts, fi))) :
    tokenize cs = some (Except.ok ts) ∧
      (countTok ts TokenType.INDENT : Int) - (countTok ts TokenType.DEDENT : Int) =
        (fi : Int) := by
  constructor
  · simp [tokenize, h]
  · have := loopF_count (cs.length + 1) 0 0 cs ts fi h
    omega

/-- C5 (witness): on `"a\n    b"` the run ends at indent level 1 with one
`INDENT` token and no `DEDENT` token — the difference is `1 > 0` on
return. -/
theorem indent_dedent_balance_witness :
    tokenize "a\n    b".data =
      some (Except.ok [⟨['a'], TokenType.IDENTIFIER⟩, ⟨['\n'], TokenType.NEWLINE⟩,
        ⟨[], TokenType.INDENT⟩, ⟨['b'], TokenType.IDENTIFIER⟩, ⟨[], TokenType.EOF⟩]) ∧
      (countTok [⟨['a'], TokenType.IDENTIFIER⟩, ⟨['\n'], TokenType.NEWLINE⟩,
        ⟨[], TokenType.INDENT⟩, ⟨['b'], TokenType.IDENTIFIER⟩, ⟨[], TokenType.EOF⟩]
        TokenType.INDENT : Int) -
        (countTok [⟨['a'], TokenType.IDENTIFIER⟩, ⟨['\n'], TokenType.NEWLINE⟩,
          ⟨[], TokenType.INDENT⟩, ⟨['b'], TokenType.IDENTIFIER⟩, ⟨[], TokenType.EOF⟩]
          TokenType.DEDENT : Int) = ((1 : Nat) : Int) :=
  indent_dedent_balance "a\n    b".data _ 1 (by rfl)

/-- C6: every successful tokenization (the empty input included) returns a
non-empty stream whose last token is `EOF` with empty value, and `EOF`
occurs exactly once — hence no token follows it. -/
theorem eof_terminates_stream (cs : List Char) (ts : List Token)
    (h : tokenize cs = some (Except.ok ts)) :
    ts ≠ [] ∧ ts.getLast? = some ⟨[], TokenType.EOF⟩ ∧ countTok ts TokenType.EOF = 1 := by
  simp only [tokenize] at h
  cases hl : loopF (cs.length + 1) 0 0 cs with
  | none => simp [hl] at h
  | some r =>
    simp only [hl] at h
    cases r with
    | error e => simp at h
    | ok p =>
      obtain ⟨ts1, fi⟩ := p
      cases h
      exact loopF_eof (cs.length + 1) 0 0 cs ts1 fi hl

/-- C6 (witness): instantiated at the empty input, whose stream is the
single `EOF` token. -/
theorem eof_terminates_stream_witness :
    ([⟨[], TokenType.EOF⟩] : List Token) ≠ [] ∧
      ([⟨[], TokenType.EOF⟩] : List Token).getLast? = some ⟨[], TokenType.EOF⟩ ∧
      countTok [⟨[], TokenType.EOF⟩] TokenType.EOF = 1 :=
  eof_terminates_stream [] [⟨[], TokenType.EOF⟩] (by rfl)

/-- C7: a string literal whose body contains no quote of the enclosing
style tokenizes to one `STRING` token whose value is exactly the body, no
escape processing applied. -/
theorem string_literal_roundtrip (q : Char) (body : List Char)
    (hq : q = '\'' ∨ q = '"') (hbody : ∀ x ∈ body, x ≠ q) :
    tokenize (q :: (body ++ [q])) =
      some (Except.ok [⟨body, TokenType.STRING⟩, ⟨[], TokenType.EOF⟩]) := by
  have hstep := step_string q hq 0 0 body [] hbody
  have hlen : (q :: (body ++ [q])).length + 1 = (body.length + 2) + 1 := by simp
  rw [tokenize, hlen, show body.length + 2 = body.length + 1 + 1 from rfl]
  simp only [loopF, hstep]
  rfl

/-- C7 (witness): `'a\"b'` (single-quoted, body containing a double quote
and letters) round-trips to `STRING` with value `a\"b`. -/
theorem string_literal_roundtrip_witness :
    tokenize ('\'' :: (['a', '"', 'b'] ++ ['\''])) =
      some (Except.ok [⟨['a', '"', 'b'], TokenType.STRING⟩, ⟨[], TokenType.EOF⟩]) :=
  string_literal_roundtrip '\'' ['a', '"', 'b'] (by decide) (by decide)

/-- C8: if an opening quote is consumed and the rest of the input contains
no matching quote, the scan runs past the end of the input and `tokenize`
fails, returning no token stream. -/
theorem unterminated_string_fails (q : Char) (rest : List Char)
    (hq : q = '\'' ∨ q = '"') (hrest : ∀ x ∈ rest, x ≠ q) :
    tokenize (q :: rest) = some (Except.error LexError.unterminatedString) := by
  have h1 : ¬(q = ' ') := by rcases hq with rfl | rfl <;> decide
  have h2 : ¬(q = '\n') := by rcases hq with rfl | rfl <;> decide
  have hstep : step 0 0 q rest = Except.error LexError.unterminatedString := by
    simp only [step, if_neg h1, if_neg h2, if_pos hq, scanString_exhausted q rest hrest]
  rw [tokenize, List.length_cons]
  simp only [loopF, hstep]

/-- C8 (witness): `"'abc"` enters string mode and hits the end of input
with no closing quote. -/
theorem unterminated_string_fails_witness :
    tokenize ('\'' :: ['a', 'b', 'c']) =
      some (Except.error LexError.unterminatedString) :=
  unterminated_string_fails '\'' ['a', 'b', 'c'] (by decide) (by decide)

/-- C9: `tokenize` terminates on every input, returning a token stream or
an error — the fuel `length + 1` never runs out because every iteration of
the scan loop consumes at least one character. -/
theorem tokenize_terminates (cs : List Char) : (tokenize cs).isSome = true := by
  have h := loopF_isSome_of_lt (cs.length + 1) 0 0 cs (by omega)
  rw [tokenize]
  cases hl : loopF (cs.length + 1) 0 0 cs with
  | none => rw [hl] at h; simp at h
  | some r => cases r <;> simp

/-- C10: a newline inside a string literal is consumed verbatim into the
`STRING` token's value: the iteration appends that single token (no
`NEWLINE`/`INDENT`/`DEDENT`) and leaves both the bracket level and the
indent level unchanged. -/
theorem newline_in_string_verbatim (q : Char) (body rest : List Char)
    (bracket : Int) (indent : Nat) (hq : q = '\'' ∨ q = '"')
    (_hnl : '\n' ∈ body) (hbody : ∀ x ∈ body, x ≠ q) :
    step bracket indent q (body ++ q :: rest) =
      Except.ok ([⟨body, TokenType.STRING⟩], bracket, indent, rest) :=
  step_string q hq bracket indent body rest hbody

/-- C10 (witness): the body `a\nb` keeps its newline in the `STRING`
value and the state `(bracket, indent) = (0, 0)` is unchanged. -/
theorem newline_in_string_verbatim_witness :
    step 0 0 '\'' (['a', '\n', 'b'] ++ '\'' :: []) =
      Except.ok ([⟨['a', '\n', 'b'], TokenType.STRING⟩], 0, 0, []) :=
  newline_in_string_verbatim '\'' ['a', '\n', 'b'] [] 0 0 (by decide) (by decide)
    (by decide)

end Ravenfall
